import Mathlib

/-!
# Verification of the neurosymbolic detection-refinement pipeline

Shallow embedding of the refinement pipeline of the repository
(`pipeline/utils.py`, `backend/app/services/symbolic.py`,
`backend/app/services/inference.py`, `backend/app/services/storage.py`,
`backend/app/api/v1/predict.py`), together with theorems about the
prediction codec, the class-wise NMS filter, the rule lookup, the
confidence-adjustment engine and the job state machine.

Python floats are modelled as exact rationals (`ℚ`).  The only
irrational quantity the source computes is `math.hypot` (a square
root), used in the proximity gate of the adjustment engine; the gate
`distance < 2 * avg_diag` is embedded as the equivalent square-root-free
rational predicate `boostGate`, and lemma `boostGate_iff_sqrt` proves it
equal to the source's `Real.sqrt` comparison.
-/

namespace NSAI

/-- Axis-aligned box in VOC corner form `[x_min, y_min, x_max, y_max]`
(the `bbox` lists of the Python code). -/
structure Box where
  x1 : ℚ
  y1 : ℚ
  x2 : ℚ
  y2 : ℚ
deriving DecidableEq, Repr

/-- Box in YOLO center form `[cx, cy, w, h]` (the `bbox_yolo` lists). -/
structure YoloBox where
  cx : ℚ
  cy : ℚ
  w : ℚ
  h : ℚ
deriving DecidableEq, Repr

/-- One detection dictionary, as produced by `parse_predictions`:
`{"id": ..., "category_id": ..., "bbox": ..., "bbox_yolo": ..., "confidence": ...}`. -/
structure Det where
  id : String
  category_id : ℤ
  bbox : Box
  bbox_yolo : YoloBox
  confidence : ℚ
deriving DecidableEq, Repr

/-! ## Geometry kernel (`pipeline/utils.py` lines 83-118) -/

/-- `get_center`: centre coordinates of a bounding box. -/
def get_center (b : Box) : ℚ × ℚ :=
  ((b.x1 + b.x2) / 2, (b.y1 + b.y2) / 2)

/-- Squared value of `get_distance` (which is
`math.hypot(center_a[0]-center_b[0], center_a[1]-center_b[1])`);
the source only ever compares the square root, see `get_distance`. -/
def dist2 (a b : Box) : ℚ :=
  ((get_center a).1 - (get_center b).1) ^ 2 + ((get_center a).2 - (get_center b).2) ^ 2

/-- Squared value of `get_bbox_diag` (which is `math.hypot(x2-x1, y2-y1)`). -/
def diag2 (b : Box) : ℚ :=
  (b.x2 - b.x1) ^ 2 + (b.y2 - b.y1) ^ 2

/-- `get_distance`: Euclidean distance between the centres of two boxes. -/
noncomputable def get_distance (a b : Box) : ℝ :=
  Real.sqrt (dist2 a b)

/-- `get_bbox_diag`: diagonal length of a bounding box. -/
noncomputable def get_bbox_diag (b : Box) : ℝ :=
  Real.sqrt (diag2 b)

/-- `get_bbox_area`: `max(0, x2-x1) * max(0, y2-y1)`. -/
def get_bbox_area (b : Box) : ℚ :=
  max 0 (b.x2 - b.x1) * max 0 (b.y2 - b.y1)

/-- `get_intersection_area`: area of the overlap rectangle of two boxes. -/
def get_intersection_area (a b : Box) : ℚ :=
  max 0 (min a.x2 b.x2 - max a.x1 b.x1) * max 0 (min a.y2 b.y2 - max a.y1 b.y1)

/-! ## Rule table lookup

The source computes
`weight = modifier_map.get((class_a, class_b)) or modifier_map.get((class_b, class_a))`
(`pipeline/utils.py` line 182, `symbolic.py` line 281).  Python `or`
falls through not only on `None` but on any falsy value, in particular
on a stored weight of `0.0`. -/

/-- Python `x or y` on `Optional[float]` values: returns `y` when `x`
is falsy (`None` or `0.0`), else `x`. -/
def pyOrOpt (x y : Option ℚ) : Option ℚ :=
  match x with
  | some v => if v = 0 then y else some v
  | none => y

/-- The modifier-weight lookup performed for each detection pair. -/
def lookupWeight (m : String × String → Option ℚ) (a b : String) : Option ℚ :=
  pyOrOpt (m (a, b)) (m (b, a))

/-! ## Confidence adjustment engine
(`apply_symbolic_modifiers`, `pipeline/utils.py` lines 160-229;
`SymbolicReasoningService._apply_modifiers`, `symbolic.py` lines 239-357) -/

/-- Action kind of a change-log entry. -/
inductive LogAction where
  | BOOST
  | PENALTY
deriving DecidableEq, Repr

/-- One explainability change-log entry.  Confidences are recorded as
exact rationals; the source stores them as `f"{value:.2f}"` strings,
a purely presentational difference.  The penalty-only fields are
`none` on boost entries (blank CSV columns). -/
structure LogEntry where
  action : LogAction
  rule_pair : String
  object_1 : String
  conf_1_before : ℚ
  conf_1_after : ℚ
  object_2 : String
  conf_2_before : ℚ
  conf_2_after : ℚ
  suppressed_object : Option String
  conf_before : Option ℚ
  conf_after : Option ℚ
  kept_object : Option String
  kept_object_conf : Option ℚ
deriving DecidableEq, Repr

/-- The proximity gate `get_distance(a,b) < 2 * avg_diag` with
`avg_diag = (get_bbox_diag a + get_bbox_diag b) / 2`, written without
square roots: `√D < √A + √B` iff `D - A - B < 0 ∨ (D-A-B)² < 4·A·B`
for nonnegative `D`, `A`, `B` (lemma `boostGate_iff_sqrt`). -/
def boostGate (a b : Box) : Prop :=
  dist2 a b - diag2 a - diag2 b < 0 ∨
    (dist2 a b - diag2 a - diag2 b) ^ 2 < 4 * diag2 a * diag2 b

instance (a b : Box) : Decidable (boostGate a b) := by
  unfold boostGate; infer_instance

/-- State threaded through the pairwise loop: the mutable dict of
detections (as a list, see `apply_symbolic_modifiers`) and the
accumulated change log. -/
abbrev EngineState := List Det × List LogEntry

/-- Body of the pairwise loop of `apply_symbolic_modifiers` for the
index pair `(i, j)`: looks up the two current detections and the
modifier weight, applies the boost (`weight > 1.0`, proximity gate) or
penalty (`weight < 1.0`, overlap gate) branch, and appends the
corresponding log entry. -/
def modifierStep (mm : String × String → Option ℚ) (cm : ℤ → String)
    (st : EngineState) (p : ℕ × ℕ) : EngineState :=
  match st.1[p.1]?, st.1[p.2]? with
  | some obj_a, some obj_b =>
    let class_a := cm obj_a.category_id
    let class_b := cm obj_b.category_id
    match lookupWeight mm class_a class_b with
    | none => st
    | some weight =>
      if 1 < weight then
        if boostGate obj_a.bbox obj_b.bbox then
          let a' : Det := { obj_a with confidence := min 1 (obj_a.confidence * weight) }
          let b' : Det := { obj_b with confidence := min 1 (obj_b.confidence * weight) }
          ((st.1.set p.1 a').set p.2 b',
            st.2 ++ [{ action := .BOOST
                       rule_pair := class_a ++ "<->" ++ class_b
                       object_1 := class_a
                       conf_1_before := obj_a.confidence
                       conf_1_after := a'.confidence
                       object_2 := class_b
                       conf_2_before := obj_b.confidence
                       conf_2_after := b'.confidence
                       suppressed_object := none
                       conf_before := none
                       conf_after := none
                       kept_object := none
                       kept_object_conf := none }])
        else st
      else if weight < 1 then
        let intersection := get_intersection_area obj_a.bbox obj_b.bbox
        let min_area := min (get_bbox_area obj_a.bbox) (get_bbox_area obj_b.bbox)
        if 0 < min_area ∧ 1/2 < intersection / min_area then
          if obj_b.confidence < obj_a.confidence then
            let b' : Det := { obj_b with confidence := obj_b.confidence * weight }
            (st.1.set p.2 b',
              st.2 ++ [{ action := .PENALTY
                         rule_pair := class_a ++ "<->" ++ class_b
                         object_1 := class_a
                         conf_1_before := obj_a.confidence
                         conf_1_after := obj_a.confidence
                         object_2 := class_b
                         conf_2_before := obj_b.confidence
                         conf_2_after := b'.confidence
                         suppressed_object := some (cm obj_b.category_id)
                         conf_before := some obj_b.confidence
                         conf_after := some b'.confidence
                         kept_object := some (cm obj_a.category_id)
                         kept_object_conf := some obj_a.confidence }])
          else
            let a' : Det := { obj_a with confidence := obj_a.confidence * weight }
            (st.1.set p.1 a',
              st.2 ++ [{ action := .PENALTY
                         rule_pair := class_a ++ "<->" ++ class_b
                         object_1 := class_a
                         conf_1_before := obj_a.confidence
                         conf_1_after := a'.confidence
                         object_2 := class_b
                         conf_2_before := obj_b.confidence
                         conf_2_after := obj_b.confidence
                         suppressed_object := some (cm obj_a.category_id)
                         conf_before := some obj_a.confidence
                         conf_after := some a'.confidence
                         kept_object := some (cm obj_b.category_id)
                         kept_object_conf := some obj_b.confidence }])
        else st
      else st
  | _, _ => st

/-- Index pairs visited by the nested loops
`for i in range(n): for j in range(i+1, n)`. -/
def pairIndices (n : ℕ) : List (ℕ × ℕ) :=
  (List.range n).flatMap fun i =>
    ((List.range n).filter fun j => i < j).map fun j => (i, j)

/-- `apply_symbolic_modifiers`: applies the modifier rules to every
unordered pair of detections of one image and returns the adjusted
detections together with the change log.  The source keys its working
copies by `obj["id"]` in an insertion-ordered dict and never removes
entries, so with pairwise-distinct ids the dict is exactly this list
traversed by index. -/
def apply_symbolic_modifiers (objects_in_image : List Det)
    (modifier_map : String × String → Option ℚ) (class_map : ℤ → String) :
    List Det × List LogEntry :=
  (pairIndices objects_in_image.length).foldl
    (modifierStep modifier_map class_map) (objects_in_image, [])

/-! ## Class-wise NMS filter (`pre_filter_with_nms`, `pipeline/utils.py` lines 47-66) -/

/-- Intersection-over-Union of two boxes, the matching metric of
`torchvision.ops.nms`. -/
def iou (a b : Box) : ℚ :=
  get_intersection_area a b /
    (get_bbox_area a + get_bbox_area b - get_intersection_area a b)

/-- Stable insertion of a detection into a confidence-descending list:
an earlier detection is placed before later ones of equal confidence. -/
def insertByConf (d : Det) : List Det → List Det
  | [] => [d]
  | e :: es => if e.confidence ≤ d.confidence then d :: e :: es else e :: insertByConf d es

/-- Stable sort by confidence descending (ties keep original order). -/
def sortByConfDesc : List Det → List Det
  | [] => []
  | d :: ds => insertByConf d (sortByConfDesc ds)

/-- Greedy suppression pass over a confidence-descending list: keep the
head, drop every later box whose IoU with it exceeds the threshold. -/
def nmsGreedy (t : ℚ) : List Det → List Det
  | [] => []
  | d :: rest => d :: nmsGreedy t (rest.filter fun e => iou d.bbox e.bbox ≤ t)
termination_by l => l.length
decreasing_by
  simp only [List.length_cons]
  exact Nat.lt_succ_of_le (List.length_filter_le _ _)

/-- Modelled from the spec: `torchvision.ops.nms` (the external library
call of `pre_filter_with_nms`) — greedy NMS: "sort by confidence
descending, repeatedly keep the highest-remaining-confidence box and
drop any unselected box whose IoU with it exceeds `iou_threshold`". -/
def torchvision_nms (objs : List Det) (t : ℚ) : List Det :=
  nmsGreedy t (sortByConfDesc objs)

/-- Keys of a `defaultdict` built by appending, i.e. the distinct
`category_id`s in order of first appearance. -/
def firstKeys : List ℤ → List ℤ
  | [] => []
  | c :: rest => c :: firstKeys (rest.filter fun d => d ≠ c)
termination_by l => l.length
decreasing_by
  simp only [List.length_cons]
  exact Nat.lt_succ_of_le (List.length_filter_le _ _)

/-- `pre_filter_with_nms`: partition the detections of one image by
`category_id` (insertion-ordered dict of per-class lists), pass classes
with fewer than two members through unchanged, and run NMS on the
others; concatenate in key order. -/
def pre_filter_with_nms (objects_in_image : List Det) (iou_threshold : ℚ) : List Det :=
  if objects_in_image.isEmpty then []
  else
    (firstKeys (objects_in_image.map (·.category_id))).flatMap fun c =>
      let objects := objects_in_image.filter fun o => o.category_id = c
      if objects.length < 2 then objects else torchvision_nms objects iou_threshold

/-! ## Prediction codec
(`parse_predictions`, `pipeline/utils.py` lines 121-148 and
`SymbolicReasoningService._parse_predictions`, `symbolic.py` lines
121-168; `SymbolicReasoningService._save_predictions`, `symbolic.py`
lines 359-388) -/

/-- One whitespace token of a prediction line: either a numeral
(something Python `float()` accepts, carried as its value) or a
non-numeric token. -/
inductive Tok where
  | num (q : ℚ)
  | junk
deriving DecidableEq, Repr

/-- Python `float(token)`: the value of a numeral, `ValueError` on a
non-numeric token. -/
def pyFloat : Tok → Except Unit ℚ
  | .num q => .ok q
  | .junk => .error ()

/-- Python `int(float_value)`: truncation toward zero. -/
def pyTrunc (q : ℚ) : ℤ :=
  if 0 ≤ q then ⌊q⌋ else -⌊-q⌋

/-- Per-line body of `parse_predictions` at line index `idx`: a line
whose token count differs from 6 is skipped (`continue`); otherwise all
six tokens go through `float()`, which raises on a non-numeric token. -/
def parseLine (idx : ℕ) (parts : List Tok) : Except Unit (Option Det) :=
  if parts.length ≠ 6 then Except.ok none
  else
    match parts with
    | [t0, t1, t2, t3, t4, t5] => do
      let category_id ← pyFloat t0
      let cx ← pyFloat t1
      let cy ← pyFloat t2
      let w ← pyFloat t3
      let h ← pyFloat t4
      let confidence ← pyFloat t5
      pure (some
        { id := "det_" ++ toString idx
          category_id := pyTrunc category_id
          bbox := ⟨cx - w / 2, cy - h / 2, cx + w / 2, cy + h / 2⟩
          bbox_yolo := ⟨cx, cy, w, h⟩
          confidence := confidence })
    | _ => Except.ok none

/-- `parse_predictions` on the lines of one prediction file, starting
at line index `idx` (the source's `enumerate` counts every line,
skipped ones included). -/
def parse_predictions : ℕ → List (List Tok) → Except Unit (List Det)
  | _, [] => Except.ok []
  | idx, line :: rest => do
    let d? ← parseLine idx line
    let ds ← parse_predictions (idx + 1) rest
    pure (match d? with | some d => d :: ds | none => ds)

/-- Python `f"{q:.6f}"` fixed 6-decimal formatting, modelled as the
written decimal value (rounding to the nearest multiple of 10⁻⁶). -/
def fmt6 (q : ℚ) : ℚ :=
  (round (q * 1000000) : ℤ) / 1000000

/-- One output line of `SymbolicReasoningService._save_predictions`:
`f"{category_id} {cx:.6f} {cy:.6f} {w:.6f} {h:.6f} {confidence:.6f}"`. -/
def writeLine (d : Det) : List Tok :=
  [Tok.num (d.category_id : ℚ), Tok.num (fmt6 d.bbox_yolo.cx),
   Tok.num (fmt6 d.bbox_yolo.cy), Tok.num (fmt6 d.bbox_yolo.w),
   Tok.num (fmt6 d.bbox_yolo.h), Tok.num (fmt6 d.confidence)]

/-- `_save_predictions` restricted to one image: the lines written to
`<image_name>.txt`. -/
def save_predictions (objs : List Det) : List (List Tok) :=
  objs.map writeLine

/-- One output line of the pipeline writer `save_predictions_to_file`
(`pipeline/utils.py` lines 69-80):
`f"{obj['category_id']} {cx} {cy} {width} {height} {obj['confidence']}"`
— the float fields go through plain `str(float)` (Python repr, which
denotes the exact stored value), with no `:.6f` formatting. -/
def writeLineRaw (d : Det) : List Tok :=
  [Tok.num (d.category_id : ℚ), Tok.num d.bbox_yolo.cx, Tok.num d.bbox_yolo.cy,
   Tok.num d.bbox_yolo.w, Tok.num d.bbox_yolo.h, Tok.num d.confidence]

/-- `save_predictions_to_file` restricted to one image: the lines the
pipeline writer puts into `<stem>.txt`. -/
def save_predictions_to_file (objs : List Det) : List (List Tok) :=
  objs.map writeLineRaw

/-- Detection whose confidence `1/3` has no finite 6-decimal
representation. -/
def c9D : Det :=
  { id := "det_0", category_id := 2, bbox := ⟨3/8, 3/8, 5/8, 5/8⟩, bbox_yolo := ⟨1/2, 1/2, 1/4, 1/4⟩, confidence := 1/3 }

/-- Follows the spec's words (round-trip "up to floating-point
formatting at 6 decimals"): the line rewritten with every float field
fixed to 6 decimals and the class id unchanged. -/
def fmt6Line (l : List Tok) : List Tok :=
  match l with
  | [Tok.num c, Tok.num x, Tok.num y, Tok.num w, Tok.num h, Tok.num f] =>
    [Tok.num c, Tok.num (fmt6 x), Tok.num (fmt6 y), Tok.num (fmt6 w),
     Tok.num (fmt6 h), Tok.num (fmt6 f)]
  | _ => l

/-! ## Job store and orchestrator
(`StorageService.update_job`, `storage.py` lines 315-357;
`trigger_inference`, `predict.py` lines 185-260;
`InferenceService.apply_nms_post_processing` and the tail of
`InferenceService.run_inference`, `inference.py`). -/

/-- Progress snapshot stored on a job (`progress` dict). -/
structure Progress where
  stage : String
  message : String
  percentage : Option ℕ
deriving DecidableEq, Repr

/-- NMS statistics returned by `apply_nms_post_processing`. -/
structure NmsStats where
  total_before : ℕ
  total_after : ℕ
deriving DecidableEq, Repr

deriving instance DecidableEq for Except

/-- One uploaded-file record of `job["files"]`. -/
structure FileRec where
  file_id : String
  filename : String
  stored_filename : String
deriving DecidableEq, Repr

/-- Job record (`data/jobs/<id>.json`).  `inference_stats_nms` models
the `nms` entry of the `inference_stats` blob written on completion:
either the recorded stage error string or the statistics. -/
structure Job where
  status : String
  created_at : ℕ
  updated_at : ℕ
  files : List FileRec
  progress : Option Progress
  error : Option String
  config : Option String
  inference_stats_nms : Option (Except String NmsStats)
deriving DecidableEq, Repr

/-- The job store: job id to stored record. -/
def Store := String → Option Job

/-- `StorageService.update_job`: read-modify-write of one job record;
each provided field overwrites the stored one, `updated_at` is set to
the current time, absent jobs yield `False` and leave the store
untouched.  The `config` and `inference_stats` keyword arguments are
the two `**kwargs` uses the orchestrator makes. -/
def update_job (store : Store) (job_id : String) (status : Option String)
    (progress : Option Progress) (error : Option String)
    (config : Option String) (stats : Option (Except String NmsStats))
    (now : ℕ) : Bool × Store :=
  match store job_id with
  | none => (false, store)
  | some job =>
    let job' : Job :=
      { job with
        status := status.getD job.status
        progress := if progress.isSome then progress else job.progress
        error := if error.isSome then error else job.error
        config := if config.isSome then config else job.config
        inference_stats_nms := if stats.isSome then stats else job.inference_stats_nms
        updated_at := now }
    (true, fun k => if k = job_id then some job' else store k)

/-- Result of the `POST /predict` endpoint: accepted (HTTP 202) or one
of the three rejection responses. -/
inductive TriggerResult where
  | accepted
  | jobNotFound
  | noFiles
  | invalidStatus
deriving DecidableEq, Repr

/-- `trigger_inference` (`predict.py`): reject with 404 when the job is
unknown, with 400 when it has no files or its status is not
`"uploaded"`; otherwise set the job to `"processing"` with a queued
progress snapshot (and the request config) and accept. -/
def trigger_inference (store : Store) (job_id : String) (config : String)
    (now : ℕ) : TriggerResult × Store :=
  match store job_id with
  | none => (.jobNotFound, store)
  | some job =>
    if job.files.isEmpty then (.noFiles, store)
    else if job.status ≠ "uploaded" then (.invalidStatus, store)
    else
      (.accepted,
        (update_job store job_id (some "processing")
          (some ⟨"queued", "Inference job queued", none⟩) none (some config) none now).2)

/-- `InferenceService.apply_nms_post_processing`: writes the
`nms_filtering` progress snapshot, then raises `InferenceError` when
the raw-artifact directory is missing; otherwise loads the raw
predictions (given here as `raw_predictions`, keyed by image name),
runs `pre_filter_with_nms` per image and returns the before/after
counts.  The raised error does not roll back the progress write, hence
the store is returned alongside the outcome. -/
def apply_nms_post_processing (store : Store) (job_id : String)
    (iou_threshold : ℚ) (raw_dir_exists : Bool)
    (raw_predictions : List (String × List Det)) (now : ℕ) :
    Store × Except String NmsStats :=
  let store1 := (update_job store job_id none
    (some ⟨"nms_filtering", "Applying NMS filtering to detections", some 92⟩)
    none none none now).2
  if !raw_dir_exists then
    (store1, .error "NMS post-processing failed: Raw predictions directory not found")
  else if raw_predictions.isEmpty then
    (store1, .ok ⟨0, 0⟩)
  else
    let filtered := raw_predictions.map fun p => (p.1, pre_filter_with_nms p.2 iou_threshold)
    (store1,
      .ok ⟨(raw_predictions.map fun p => p.2.length).sum,
           (filtered.map fun p => p.2.length).sum⟩)

/-- Tail of `InferenceService.run_inference` from the NMS stage on: the
call to `apply_nms_post_processing` is wrapped in `try/except` — on
failure the error is recorded under `inference_stats["nms"]` and the
job is *not* failed ("Don't fail the entire job if NMS fails"); the
symbolic-reasoning stage is likewise wrapped; finally the job is
updated to status `"completed"` with the statistics. -/
def run_inference_tail (store : Store) (job_id : String) (iou_threshold : ℚ)
    (raw_dir_exists : Bool) (raw_predictions : List (String × List Det))
    (now : ℕ) : Store :=
  let r := apply_nms_post_processing store job_id iou_threshold
    raw_dir_exists raw_predictions now
  (update_job r.1 job_id (some "completed")
    (some ⟨"completed", "Inference completed successfully", some 100⟩)
    none none (some r.2) now).2

/-- Concrete penalty instance: classes C/D, rule weight 0.5,
confidences 0.8 and 0.3, 90% mutual overlap. -/
def c1A : Det :=
  { id := "det_0", category_id := 0, bbox := ⟨0, 0, 1, 1⟩, bbox_yolo := ⟨1/2, 1/2, 1, 1⟩, confidence := 4/5 }

/-- Second detection of the concrete penalty instance. -/
def c1B : Det :=
  { id := "det_1", category_id := 1, bbox := ⟨0, 0, 1, 9/10⟩, bbox_yolo := ⟨1/2, 9/20, 1, 9/10⟩, confidence := 3/10 }

/-- Rule table of the concrete penalty instance. -/
def c1Map : String × String → Option ℚ :=
  fun p => if p = ("C", "D") then some (1/2) else none

/-- Class-name map of the concrete penalty instance. -/
def c1Cm : ℤ → String :=
  fun c => if c = 0 then "C" else "D"

/-- Degenerate (zero-width) box paired with a unit square under a
penalty rule. -/
def c10A : Det :=
  { id := "det_0", category_id := 0, bbox := ⟨0, 0, 0, 1⟩, bbox_yolo := ⟨0, 1/2, 0, 1⟩, confidence := 4/5 }

/-- First detection of the spec's boost example (class A, confidence
0.7, diagonal 2, center (0.6, 0.8)). -/
def c2A : Det :=
  { id := "det_0", category_id := 0, bbox := ⟨0, 0, 6/5, 8/5⟩, bbox_yolo := ⟨3/5, 4/5, 6/5, 8/5⟩, confidence := 7/10 }

/-- Second detection of the spec's boost example (class B, confidence
0.6, diagonal 2, center one unit to the right of `c2A`). -/
def c2B : Det :=
  { id := "det_1", category_id := 1, bbox := ⟨1, 0, 11/5, 8/5⟩, bbox_yolo := ⟨8/5, 4/5, 6/5, 8/5⟩, confidence := 3/5 }

/-- Rule table of the boost example: weight 1.25 for the pair (A, B). -/
def c2Map : String × String → Option ℚ :=
  fun p => if p = ("A", "B") then some (5/4) else none

/-- Class-name map of the boost example. -/
def c2Cm : ℤ → String :=
  fun c => if c = 0 then "A" else "B"

/-- Boost pair with coincident centers used by the witness: classes
A/B, weight 1.25, confidences 0.7 and 0.6, both diagonals 1. -/
def c2WA : Det :=
  { id := "det_0", category_id := 0, bbox := ⟨0, 0, 3/5, 4/5⟩, bbox_yolo := ⟨3/10, 2/5, 3/5, 4/5⟩, confidence := 7/10 }

/-- Second witness detection, same box as `c2WA` but class B. -/
def c2WB : Det :=
  { id := "det_1", category_id := 1, bbox := ⟨0, 0, 3/5, 4/5⟩, bbox_yolo := ⟨3/10, 2/5, 3/5, 4/5⟩, confidence := 3/5 }

/-- Everything of a detection except its (mutable) confidence. -/
def skel (d : Det) : String × ℤ × Box × YoloBox :=
  (d.id, d.category_id, d.bbox, d.bbox_yolo)

/-! ## Job state machine claims -/

/-- Concrete processing job used on the NMS-failure path. -/
def c7job : Job :=
  { status := "processing", created_at := 0, updated_at := 0, files := [⟨"f1", "a.png", "s.png"⟩], progress := none, error := none, config := none, inference_stats_nms := none }

/-- Store holding only `c7job` under id `"j"`. -/
def c7store : Store :=
  fun k => if k = "j" then some c7job else none

/-- Uploaded job with one file, ready for inference. -/
def c8job : Job :=
  { status := "uploaded", created_at := 0, updated_at := 0, files := [⟨"f1", "a.png", "s.png"⟩], progress := none, error := none, config := none, inference_stats_nms := none }

/-- Store holding only `c8job` under id `"j"`. -/
def c8store : Store :=
  fun k => if k = "j" then some c8job else none

/-! ## Theorems -/

/-! ## Supporting lemmas -/

/-- Areas are clamped nonnegative. -/
theorem get_bbox_area_nonneg (b : Box) : 0 ≤ get_bbox_area b :=
  mul_nonneg (le_max_left 0 _) (le_max_left 0 _)

/-- Squared center distances are nonnegative. -/
theorem dist2_nonneg (a b : Box) : 0 ≤ dist2 a b :=
  add_nonneg (sq_nonneg _) (sq_nonneg _)

/-- Squared diagonals are nonnegative. -/
theorem diag2_nonneg (b : Box) : 0 ≤ diag2 b :=
  add_nonneg (sq_nonneg _) (sq_nonneg _)

/-- Square-root-free characterisation of `√D < √A + √B` for
nonnegative arguments. -/
theorem sqrt_lt_sqrt_add_sqrt_iff (D A B : ℝ) (hD : 0 ≤ D) (hA : 0 ≤ A) (hB : 0 ≤ B) :
    Real.sqrt D < Real.sqrt A + Real.sqrt B ↔
      (D - A - B < 0 ∨ (D - A - B) ^ 2 < 4 * A * B) := by
  have hs0 : 0 ≤ Real.sqrt A + Real.sqrt B :=
    add_nonneg (Real.sqrt_nonneg A) (Real.sqrt_nonneg B)
  have hAB : 0 ≤ Real.sqrt (A * B) := Real.sqrt_nonneg _
  have hsq : (Real.sqrt A + Real.sqrt B) ^ 2 = A + B + 2 * Real.sqrt (A * B) := by
    rw [add_sq, Real.sq_sqrt hA, Real.sq_sqrt hB, Real.sqrt_mul hA]
    ring
  have h4 : Real.sqrt (4 * A * B) = 2 * Real.sqrt (A * B) := by
    rw [show (4 : ℝ) * A * B = 2 ^ 2 * (A * B) by ring,
      Real.sqrt_mul (by positivity) (A * B), Real.sqrt_sq (by norm_num : (0:ℝ) ≤ 2)]
  constructor
  · intro h
    have hspos : 0 < Real.sqrt A + Real.sqrt B := lt_of_le_of_lt (Real.sqrt_nonneg D) h
    have h1 : D < (Real.sqrt A + Real.sqrt B) ^ 2 := (Real.sqrt_lt' hspos).mp h
    rw [hsq] at h1
    by_cases ht : D - A - B < 0
    · exact Or.inl ht
    · push_neg at ht
      right
      have h2 : D - A - B < 2 * Real.sqrt (A * B) := by linarith
      calc (D - A - B) ^ 2 < (2 * Real.sqrt (A * B)) ^ 2 :=
            pow_lt_pow_left₀ h2 ht two_ne_zero
        _ = 4 * (Real.sqrt (A * B)) ^ 2 := by ring
        _ = 4 * (A * B) := by rw [Real.sq_sqrt (mul_nonneg hA hB)]
        _ = 4 * A * B := by ring
  · intro h
    have key : D < (Real.sqrt A + Real.sqrt B) ^ 2 := by
      rw [hsq]
      by_cases ht : D - A - B < 0
      · linarith
      · push_neg at ht
        rcases h with h | h
        · linarith
        · have h2 : D - A - B < Real.sqrt (4 * A * B) := (Real.lt_sqrt ht).mpr h
          rw [h4] at h2
          linarith
    have h5 : Real.sqrt D < Real.sqrt ((Real.sqrt A + Real.sqrt B) ^ 2) :=
      Real.sqrt_lt_sqrt hD key
    rwa [Real.sqrt_sq hs0] at h5

/-- The decidable `boostGate` is exactly the source's proximity gate
`get_distance(a, b) < 2 * ((get_bbox_diag a + get_bbox_diag b) / 2)`. -/
theorem boostGate_iff_sqrt (a b : Box) :
    boostGate a b ↔
      get_distance a b < 2 * ((get_bbox_diag a + get_bbox_diag b) / 2) := by
  have hD : (0:ℝ) ≤ ((dist2 a b : ℚ) : ℝ) := by exact_mod_cast dist2_nonneg a b
  have hA : (0:ℝ) ≤ ((diag2 a : ℚ) : ℝ) := by exact_mod_cast diag2_nonneg a
  have hB : (0:ℝ) ≤ ((diag2 b : ℚ) : ℝ) := by exact_mod_cast diag2_nonneg b
  rw [get_distance, get_bbox_diag, get_bbox_diag,
    show (2:ℝ) * ((Real.sqrt (diag2 a) + Real.sqrt (diag2 b)) / 2)
        = Real.sqrt (diag2 a) + Real.sqrt (diag2 b) from by ring,
    sqrt_lt_sqrt_add_sqrt_iff _ _ _ hD hA hB]
  unfold boostGate
  constructor
  · rintro (h | h)
    · left; exact_mod_cast h
    · right; exact_mod_cast h
  · rintro (h | h)
    · left; exact_mod_cast h
    · right; exact_mod_cast h

/-- Setting a list position to the value it already holds is the
identity. -/
theorem set_getElem_self {α : Type} (l : List α) (n : ℕ) (a : α)
    (h : l[n]? = some a) : l.set n a = l := by
  induction l generalizing n with
  | nil => simp at h
  | cons x xs ih =>
    cases n with
    | zero =>
      simp only [List.getElem?_cons_zero, Option.some.injEq] at h
      simp [h]
    | succ m =>
      simp only [List.getElem?_cons_succ] at h
      simp [ih m h]

/-- **C1**: for a pair of detections whose classes match a rule with
weight < 1.0 and whose overlap ratio `intersection / min(area a, area b)`
exceeds 0.5, the engine multiplies the confidence of the
lower-confidence detection (ties suppress the first) by the weight with
no clamping, leaves the other detection unchanged, and appends exactly
one `PENALTY` entry recording suppressed/kept classes and the
suppressed confidence before and after. -/
theorem C1_penalty_pair (mm : String × String → Option ℚ) (cm : ℤ → String)
    (st : EngineState) (i j : ℕ) (a b : Det) (w : ℚ)
    (hij : i ≠ j)
    (ha : st.1[i]? = some a) (hb : st.1[j]? = some b)
    (hw : lookupWeight mm (cm a.category_id) (cm b.category_id) = some w)
    (hw1 : w < 1)
    (hmin : 0 < min (get_bbox_area a.bbox) (get_bbox_area b.bbox))
    (hov : 1/2 < get_intersection_area a.bbox b.bbox /
      min (get_bbox_area a.bbox) (get_bbox_area b.bbox)) :
    ((modifierStep mm cm st (i, j)).1[if b.confidence < a.confidence then j else i]?
        = some { (if b.confidence < a.confidence then b else a) with
                 confidence := (if b.confidence < a.confidence then b else a).confidence * w })
    ∧ ((modifierStep mm cm st (i, j)).1[if b.confidence < a.confidence then i else j]?
        = some (if b.confidence < a.confidence then a else b))
    ∧ ∃ e : LogEntry,
        (modifierStep mm cm st (i, j)).2 = st.2 ++ [e]
        ∧ e.action = .PENALTY
        ∧ e.suppressed_object
            = some (cm (if b.confidence < a.confidence then b else a).category_id)
        ∧ e.conf_before = some (if b.confidence < a.confidence then b else a).confidence
        ∧ e.conf_after
            = some ((if b.confidence < a.confidence then b else a).confidence * w)
        ∧ e.kept_object
            = some (cm (if b.confidence < a.confidence then a else b).category_id)
        ∧ e.kept_object_conf
            = some (if b.confidence < a.confidence then a else b).confidence := by
  have hjlen : j < st.1.length := by
    by_contra hh
    push_neg at hh
    rw [List.getElem?_eq_none hh] at hb
    exact Option.noConfusion hb
  have hilen : i < st.1.length := by
    by_contra hh
    push_neg at hh
    rw [List.getElem?_eq_none hh] at ha
    exact Option.noConfusion ha
  unfold modifierStep
  dsimp only
  rw [ha, hb]
  dsimp only
  rw [hw]
  dsimp only
  rw [if_neg (by linarith : ¬ (1:ℚ) < w), if_pos hw1, if_pos ⟨hmin, hov⟩]
  by_cases hc : b.confidence < a.confidence
  · simp only [if_pos hc]
    refine ⟨?_, ?_, ⟨_, rfl, rfl, rfl, rfl, rfl, rfl, rfl⟩⟩
    · rw [List.getElem?_set_self' , hb]
      rfl
    · rw [List.getElem?_set_ne (by exact fun hh => hij hh.symm), ha]
  · simp only [if_neg hc]
    refine ⟨?_, ?_, ⟨_, rfl, rfl, rfl, rfl, rfl, rfl, rfl⟩⟩
    · rw [List.getElem?_set_self' , ha]
      rfl
    · rw [List.getElem?_set_ne hij, hb]

/-- Witness for `C1_penalty_pair`: the 0.3-confidence detection is
suppressed to 0.15, the 0.8 one kept unchanged, one `PENALTY` entry. -/
theorem C1_penalty_pair_witness :
    ((modifierStep c1Map c1Cm ([c1A, c1B], []) (0, 1)).1[if c1B.confidence < c1A.confidence then 1 else 0]?
        = some { (if c1B.confidence < c1A.confidence then c1B else c1A) with
                 confidence := (if c1B.confidence < c1A.confidence then c1B else c1A).confidence * (1/2) })
    ∧ ((modifierStep c1Map c1Cm ([c1A, c1B], []) (0, 1)).1[if c1B.confidence < c1A.confidence then 0 else 1]?
        = some (if c1B.confidence < c1A.confidence then c1A else c1B))
    ∧ ∃ e : LogEntry,
        (modifierStep c1Map c1Cm ([c1A, c1B], []) (0, 1)).2 = ([] : List LogEntry) ++ [e]
        ∧ e.action = .PENALTY
        ∧ e.suppressed_object
            = some (c1Cm (if c1B.confidence < c1A.confidence then c1B else c1A).category_id)
        ∧ e.conf_before = some (if c1B.confidence < c1A.confidence then c1B else c1A).confidence
        ∧ e.conf_after
            = some ((if c1B.confidence < c1A.confidence then c1B else c1A).confidence * (1/2))
        ∧ e.kept_object
            = some (c1Cm (if c1B.confidence < c1A.confidence then c1A else c1B).category_id)
        ∧ e.kept_object_conf
            = some (if c1B.confidence < c1A.confidence then c1A else c1B).confidence :=
  C1_penalty_pair c1Map c1Cm ([c1A, c1B], []) 0 1 c1A c1B (1/2)
    (by decide) rfl rfl
    (by simp [lookupWeight, pyOrOpt, c1Map, c1Cm, c1A, c1B])
    (by norm_num)
    (by norm_num [c1A, c1B, get_bbox_area, min_def, max_def])
    (by norm_num [c1A, c1B, get_bbox_area, get_intersection_area, min_def, max_def])

/-- **C10**: under a penalty rule (weight < 1.0), a pair where
either box has zero area never takes the penalty branch: the guard
`min_area > 0` fails, the overlap ratio is not used, and the state is
returned unchanged (no confidence change, no log entry, no division by
a zero `min_area`). -/
theorem C10_zero_area_no_penalty (mm : String × String → Option ℚ) (cm : ℤ → String)
    (st : EngineState) (i j : ℕ) (a b : Det) (w : ℚ)
    (ha : st.1[i]? = some a) (hb : st.1[j]? = some b)
    (hw : lookupWeight mm (cm a.category_id) (cm b.category_id) = some w)
    (hw1 : w < 1)
    (hz : get_bbox_area a.bbox = 0 ∨ get_bbox_area b.bbox = 0) :
    modifierStep mm cm st (i, j) = st := by
  have hgate : ¬ (0 < min (get_bbox_area a.bbox) (get_bbox_area b.bbox) ∧
      1/2 < get_intersection_area a.bbox b.bbox /
        min (get_bbox_area a.bbox) (get_bbox_area b.bbox)) := by
    rintro ⟨h1, _⟩
    rcases hz with h | h
    · exact absurd (lt_of_lt_of_le h1 (h ▸ min_le_left _ _)) (lt_irrefl 0)
    · exact absurd (lt_of_lt_of_le h1 (h ▸ min_le_right _ _)) (lt_irrefl 0)
  unfold modifierStep
  dsimp only
  rw [ha, hb]
  dsimp only
  rw [hw]
  dsimp only
  rw [if_neg (by linarith : ¬ (1:ℚ) < w), if_pos hw1, if_neg hgate]

/-- Witness for `C10_zero_area_no_penalty`: the degenerate pair leaves
the engine state untouched. -/
theorem C10_zero_area_no_penalty_witness :
    modifierStep c1Map c1Cm ([c10A, c1B], []) (0, 1) = ([c10A, c1B], []) :=
  C10_zero_area_no_penalty c1Map c1Cm ([c10A, c1B], []) 0 1 c10A c1B (1/2)
    rfl rfl
    (by simp [lookupWeight, pyOrOpt, c1Map, c1Cm, c10A, c1B])
    (by norm_num)
    (Or.inl (by norm_num [c10A, get_bbox_area, max_def]))

/-- **C3 counterexample**: a rule table whose only entry stores weight
`0.0` under `("x", "y")`.  The claim says the lookup returns the stored
weight whenever the `(class_a, class_b)` key is present, *including*
when that weight is `0.0` — but the source computes
`modifier_map.get((class_a, class_b)) or modifier_map.get((class_b, class_a))`
and Python `or` treats `0.0` as falsy, so the lookup falls through to
the absent `("y", "x")` key and yields `None`, not the stored `0.0`. -/
theorem C3_counterexample :
    ((fun p : String × String => if p = ("x", "y") then some (0:ℚ) else none) ("x", "y")
        = some 0)
    ∧ ((fun p : String × String => if p = ("x", "y") then some (0:ℚ) else none) ("y", "x")
        = none)
    ∧ lookupWeight (fun p : String × String => if p = ("x", "y") then some (0:ℚ) else none)
        "x" "y" ≠ some 0
    ∧ lookupWeight (fun p : String × String => if p = ("x", "y") then some (0:ℚ) else none)
        "x" "y" = none := by
  refine ⟨by decide, by decide, by decide, by decide⟩

/-- **C3 (amended)**: the lookup returns the weight stored under
`(class_a, class_b)` whenever that key is present with a *nonzero*
weight; when that key is absent — or stores `0.0`, which Python `or`
treats as absent — it returns whatever is stored under
`(class_b, class_a)` (including a stored `0.0` there), and `None` when
that key is absent too. -/
theorem C3_lookup_amended (m : String × String → Option ℚ) (a b : String) :
    (∀ w : ℚ, m (a, b) = some w → w ≠ 0 → lookupWeight m a b = some w)
    ∧ (m (a, b) = none → lookupWeight m a b = m (b, a))
    ∧ (m (a, b) = some 0 → lookupWeight m a b = m (b, a))
    ∧ ((m (a, b) = none ∨ m (a, b) = some 0) → m (b, a) = none →
        lookupWeight m a b = none) := by
  have h2 : m (a, b) = none → lookupWeight m a b = m (b, a) := by
    intro hw
    unfold lookupWeight
    rw [hw]
    rfl
  have h3 : m (a, b) = some 0 → lookupWeight m a b = m (b, a) := by
    intro hw
    unfold lookupWeight
    rw [hw]
    unfold pyOrOpt
    simp
  refine ⟨?_, h2, h3, ?_⟩
  · intro w hw hw0
    unfold lookupWeight
    rw [hw]
    unfold pyOrOpt
    simp [hw0]
  · rintro (hab | hab) hba
    · rw [h2 hab, hba]
    · rw [h3 hab, hba]

/-- Witness for `C3_lookup_amended`: a nonzero forward weight is
returned as stored. -/
theorem C3_lookup_amended_witness :
    lookupWeight (fun p : String × String => if p = ("u", "v") then some (2:ℚ) else none)
      "u" "v" = some 2 :=
  (C3_lookup_amended
    (fun p : String × String => if p = ("u", "v") then some (2:ℚ) else none) "u" "v").1
    2 (by decide) (by norm_num)

/-- **C2**: (general part) for a pair whose classes match a rule with
weight > 1.0 and whose center distance is strictly below
`2 * ((diag a + diag b) / 2)`, the engine sets each participant's
confidence to `min 1 (confidence * weight)` and appends exactly one
`BOOST` entry; (example part) on the spec's concrete instance — weight
1.25, confidences 0.7 and 0.6, centers one unit apart, diagonals
summing to 4 — the confidences become 0.875 and 0.75 and exactly one
`BOOST` entry is produced. -/
theorem C2_boost_pair_and_example :
    (∀ (mm : String × String → Option ℚ) (cm : ℤ → String)
        (st : EngineState) (i j : ℕ) (a b : Det) (w : ℚ),
      i ≠ j →
      st.1[i]? = some a → st.1[j]? = some b →
      lookupWeight mm (cm a.category_id) (cm b.category_id) = some w →
      1 < w →
      get_distance a.bbox b.bbox
          < 2 * ((get_bbox_diag a.bbox + get_bbox_diag b.bbox) / 2) →
      ((modifierStep mm cm st (i, j)).1[i]?
          = some { a with confidence := min 1 (a.confidence * w) })
      ∧ ((modifierStep mm cm st (i, j)).1[j]?
          = some { b with confidence := min 1 (b.confidence * w) })
      ∧ ∃ e : LogEntry,
          (modifierStep mm cm st (i, j)).2 = st.2 ++ [e] ∧ e.action = .BOOST)
    ∧ ((apply_symbolic_modifiers [c2A, c2B] c2Map c2Cm).1[0]?.map Det.confidence
          = some (7/8)
       ∧ (apply_symbolic_modifiers [c2A, c2B] c2Map c2Cm).1[1]?.map Det.confidence
          = some (3/4)
       ∧ (apply_symbolic_modifiers [c2A, c2B] c2Map c2Cm).2.map LogEntry.action
          = [.BOOST]) := by
  have hgen : ∀ (mm : String × String → Option ℚ) (cm : ℤ → String)
      (st : EngineState) (i j : ℕ) (a b : Det) (w : ℚ),
      i ≠ j →
      st.1[i]? = some a → st.1[j]? = some b →
      lookupWeight mm (cm a.category_id) (cm b.category_id) = some w →
      1 < w →
      get_distance a.bbox b.bbox
          < 2 * ((get_bbox_diag a.bbox + get_bbox_diag b.bbox) / 2) →
      ((modifierStep mm cm st (i, j)).1[i]?
          = some { a with confidence := min 1 (a.confidence * w) })
      ∧ ((modifierStep mm cm st (i, j)).1[j]?
          = some { b with confidence := min 1 (b.confidence * w) })
      ∧ ∃ e : LogEntry,
          (modifierStep mm cm st (i, j)).2 = st.2 ++ [e] ∧ e.action = .BOOST := by
    intro mm cm st i j a b w hij ha hb hw hw1 hgate
    have hg : boostGate a.bbox b.bbox := (boostGate_iff_sqrt _ _).mpr hgate
    unfold modifierStep
    dsimp only
    rw [ha, hb]
    dsimp only
    rw [hw]
    dsimp only
    rw [if_pos hw1, if_pos hg]
    refine ⟨?_, ?_, _, rfl, rfl⟩
    · rw [List.getElem?_set_ne (Ne.symm hij), List.getElem?_set_self' , ha]
      rfl
    · rw [List.getElem?_set_self' , List.getElem?_set_ne hij, hb]
      rfl
  refine ⟨hgen, ?_⟩
  have hstep : apply_symbolic_modifiers [c2A, c2B] c2Map c2Cm
      = modifierStep c2Map c2Cm ([c2A, c2B], []) (0, 1) := rfl
  have hd : dist2 c2A.bbox c2B.bbox = 1 := by
    norm_num [dist2, get_center, c2A, c2B]
  have hA : diag2 c2A.bbox = 4 := by norm_num [diag2, c2A]
  have hB : diag2 c2B.bbox = 4 := by norm_num [diag2, c2B]
  have hgate : get_distance c2A.bbox c2B.bbox
      < 2 * ((get_bbox_diag c2A.bbox + get_bbox_diag c2B.bbox) / 2) := by
    rw [get_distance, get_bbox_diag, get_bbox_diag, hd, hA, hB]
    rw [show ((1:ℚ):ℝ) = 1 by norm_num, show ((4:ℚ):ℝ) = 2^2 by norm_num,
      Real.sqrt_one, Real.sqrt_sq (by norm_num : (0:ℝ) ≤ 2)]
    norm_num
  have h := hgen c2Map c2Cm ([c2A, c2B], []) 0 1 c2A c2B (5/4)
    (by decide) rfl rfl
    (by simp [lookupWeight, pyOrOpt, c2Map, c2Cm, c2A, c2B])
    (by norm_num) hgate
  rcases h with ⟨h0, h1, e, he, hact⟩
  rw [hstep]
  refine ⟨?_, ?_, ?_⟩
  · rw [h0]
    norm_num [c2A, min_def]
  · rw [h1]
    norm_num [c2B, min_def]
  · rw [he]
    simp [hact]

/-- Witness for `C2_boost_pair_and_example`: its general part applied
to a concrete coincident pair. -/
theorem C2_boost_pair_and_example_witness :
    ((modifierStep c2Map c2Cm ([c2WA, c2WB], []) (0, 1)).1[0]?
        = some { c2WA with confidence := min 1 (c2WA.confidence * (5/4)) })
    ∧ ((modifierStep c2Map c2Cm ([c2WA, c2WB], []) (0, 1)).1[1]?
        = some { c2WB with confidence := min 1 (c2WB.confidence * (5/4)) })
    ∧ ∃ e : LogEntry,
        (modifierStep c2Map c2Cm ([c2WA, c2WB], []) (0, 1)).2
            = ([] : List LogEntry) ++ [e] ∧ e.action = .BOOST :=
  C2_boost_pair_and_example.1 c2Map c2Cm ([c2WA, c2WB], []) 0 1 c2WA c2WB (5/4)
    (by decide) rfl rfl
    (by simp [lookupWeight, pyOrOpt, c2Map, c2Cm, c2WA, c2WB])
    (by norm_num)
    (by
      rw [get_distance, get_bbox_diag, get_bbox_diag,
        show dist2 c2WA.bbox c2WB.bbox = 0 from by norm_num [dist2, get_center, c2WA, c2WB],
        show diag2 c2WA.bbox = 1 from by norm_num [diag2, c2WA],
        show diag2 c2WB.bbox = 1 from by norm_num [diag2, c2WB]]
      rw [show ((0:ℚ):ℝ) = 0 by norm_num, show ((1:ℚ):ℝ) = 1 by norm_num,
        Real.sqrt_zero, Real.sqrt_one]
      norm_num)

/-- Confidence updates do not change the skeleton. -/
theorem skel_conf_update (d : Det) (c : ℚ) :
    skel { d with confidence := c } = skel d := rfl

/-- One pairwise step only ever rewrites confidences: the mapped
skeletons are untouched. -/
theorem modifierStep_map_skel (mm : String × String → Option ℚ) (cm : ℤ → String)
    (st : EngineState) (p : ℕ × ℕ) :
    ((modifierStep mm cm st p).1).map skel = st.1.map skel := by
  unfold modifierStep
  dsimp only
  cases ha : st.1[p.1]? with
  | none => rfl
  | some a =>
    cases hb : st.1[p.2]? with
    | none => rfl
    | some b =>
      dsimp only
      cases hw : lookupWeight mm (cm a.category_id) (cm b.category_id) with
      | none => rfl
      | some w =>
        have h1' : (st.1.map skel)[p.1]? = some (skel a) := by
          rw [List.getElem?_map, ha]
          rfl
        have h2' : (st.1.map skel)[p.2]? = some (skel b) := by
          rw [List.getElem?_map, hb]
          rfl
        dsimp only
        by_cases hgt : 1 < w
        · rw [if_pos hgt]
          by_cases hg : boostGate a.bbox b.bbox
          · rw [if_pos hg]
            dsimp only
            rw [List.map_set, List.map_set]
            show ((List.map skel st.1).set p.1 (skel a)).set p.2 (skel b)
                = List.map skel st.1
            rw [set_getElem_self _ _ _ h1', set_getElem_self _ _ _ h2']
          · rw [if_neg hg]
        · rw [if_neg hgt]
          by_cases hlt : w < 1
          · rw [if_pos hlt]
            by_cases hov : 0 < min (get_bbox_area a.bbox) (get_bbox_area b.bbox) ∧
                1/2 < get_intersection_area a.bbox b.bbox /
                  min (get_bbox_area a.bbox) (get_bbox_area b.bbox)
            · rw [if_pos hov]
              by_cases hc : b.confidence < a.confidence
              · rw [if_pos hc]
                dsimp only
                rw [List.map_set]
                show (List.map skel st.1).set p.2 (skel b) = List.map skel st.1
                rw [set_getElem_self _ _ _ h2']
              · rw [if_neg hc]
                dsimp only
                rw [List.map_set]
                show (List.map skel st.1).set p.1 (skel a) = List.map skel st.1
                rw [set_getElem_self _ _ _ h1']
            · rw [if_neg hov]
          · rw [if_neg hlt]

/-- Fold extension of `modifierStep_map_skel` over any pair sequence. -/
theorem foldl_modifierStep_map_skel (mm : String × String → Option ℚ) (cm : ℤ → String)
    (ps : List (ℕ × ℕ)) (st : EngineState) :
    ((ps.foldl (modifierStep mm cm) st).1).map skel = st.1.map skel := by
  induction ps generalizing st with
  | nil => rfl
  | cons p ps ih => rw [List.foldl_cons, ih, modifierStep_map_skel]

/-- A pair whose classes match no rule (in the orientation the loop
uses) leaves the state untouched. -/
theorem modifierStep_eq_self_of_none (mm : String × String → Option ℚ) (cm : ℤ → String)
    (st : EngineState) (p : ℕ × ℕ)
    (h : ∀ a b : Det, st.1[p.1]? = some a → st.1[p.2]? = some b →
      lookupWeight mm (cm a.category_id) (cm b.category_id) = none) :
    modifierStep mm cm st p = st := by
  unfold modifierStep
  dsimp only
  cases ha : st.1[p.1]? with
  | none => rfl
  | some a =>
    cases hb : st.1[p.2]? with
    | none => rfl
    | some b =>
      dsimp only
      rw [h a b ha hb]

/-- A pairwise step never touches positions other than its two
indices. -/
theorem modifierStep_getElem_ne (mm : String × String → Option ℚ) (cm : ℤ → String)
    (st : EngineState) (p : ℕ × ℕ) (k : ℕ) (h1 : p.1 ≠ k) (h2 : p.2 ≠ k) :
    ((modifierStep mm cm st p).1)[k]? = st.1[k]? := by
  unfold modifierStep
  dsimp only
  cases ha : st.1[p.1]? with
  | none => rfl
  | some a =>
    cases hb : st.1[p.2]? with
    | none => rfl
    | some b =>
      dsimp only
      cases hw : lookupWeight mm (cm a.category_id) (cm b.category_id) with
      | none => rfl
      | some w =>
        dsimp only
        by_cases hgt : 1 < w
        · rw [if_pos hgt]
          by_cases hg : boostGate a.bbox b.bbox
          · rw [if_pos hg]
            dsimp only
            rw [List.getElem?_set_ne h2, List.getElem?_set_ne h1]
          · rw [if_neg hg]
        · rw [if_neg hgt]
          by_cases hlt : w < 1
          · rw [if_pos hlt]
            by_cases hov : 0 < min (get_bbox_area a.bbox) (get_bbox_area b.bbox) ∧
                1/2 < get_intersection_area a.bbox b.bbox /
                  min (get_bbox_area a.bbox) (get_bbox_area b.bbox)
            · rw [if_pos hov]
              by_cases hc : b.confidence < a.confidence
              · rw [if_pos hc]
                dsimp only
                rw [List.getElem?_set_ne h2]
              · rw [if_neg hc]
                dsimp only
                rw [List.getElem?_set_ne h1]
            · rw [if_neg hov]
          · rw [if_neg hlt]

/-- Dropping pairs whose step is the identity (under the skeleton
invariant) does not change the fold. -/
theorem foldl_filter_of_inv (mm : String × String → Option ℚ) (cm : ℤ → String)
    (objs : List Det) (keep : ℕ × ℕ → Bool) (ps : List (ℕ × ℕ)) (st : EngineState)
    (hst : st.1.map skel = objs.map skel)
    (hid : ∀ (st' : EngineState) (p : ℕ × ℕ), p ∈ ps →
      st'.1.map skel = objs.map skel → keep p = false →
      modifierStep mm cm st' p = st') :
    ps.foldl (modifierStep mm cm) st = (ps.filter keep).foldl (modifierStep mm cm) st := by
  induction ps generalizing st with
  | nil => rfl
  | cons p ps ih =>
    rw [List.foldl_cons]
    cases hk : keep p with
    | false =>
      have hfc : List.filter keep (p :: ps) = List.filter keep ps := by
        simp [List.filter_cons, hk]
      rw [hid st p (List.mem_cons_self p ps) hst hk, hfc]
      exact ih st hst fun st' q hq => hid st' q (List.mem_cons_of_mem p hq)
    | true =>
      have hfc : List.filter keep (p :: ps) = p :: List.filter keep ps := by
        simp [List.filter_cons, hk]
      rw [hfc, List.foldl_cons]
      exact ih (modifierStep mm cm st p)
        (by rw [modifierStep_map_skel, hst])
        (fun st' q hq => hid st' q (List.mem_cons_of_mem p hq))

/-- A fold over pairs avoiding index `k` leaves position `k`
untouched. -/
theorem foldl_getElem_of_avoid (mm : String × String → Option ℚ) (cm : ℤ → String)
    (k : ℕ) (ps : List (ℕ × ℕ)) (st : EngineState)
    (h : ∀ p ∈ ps, p.1 ≠ k ∧ p.2 ≠ k) :
    ((ps.foldl (modifierStep mm cm) st).1)[k]? = (st.1)[k]? := by
  induction ps generalizing st with
  | nil => rfl
  | cons p ps ih =>
    rw [List.foldl_cons, ih _ fun q hq => h q (List.mem_cons_of_mem p hq),
      modifierStep_getElem_ne mm cm st p k (h p (List.mem_cons_self p ps)).1
        (h p (List.mem_cons_self p ps)).2]

/-- Pairs visited by the loop satisfy `i < j < n`. -/
theorem mem_pairIndices {n : ℕ} {p : ℕ × ℕ} (h : p ∈ pairIndices n) :
    p.1 < p.2 ∧ p.2 < n := by
  unfold pairIndices at h
  simp only [List.mem_flatMap, List.mem_map, List.mem_filter, List.mem_range,
    decide_eq_true_eq] at h
  obtain ⟨i, _, j, ⟨hj, hij⟩, rfl⟩ := h
  exact ⟨hij, hj⟩

/-- Positionwise inversion of a mapped-skeleton equality. -/
theorem skel_inv (l1 l2 : List Det) (h : l1.map skel = l2.map skel)
    (k : ℕ) (x : Det) (hx : l1[k]? = some x) :
    ∃ y : Det, l2[k]? = some y ∧ skel y = skel x := by
  have h' := congrArg (fun l => l[k]?) h
  simp only [List.getElem?_map] at h'
  rw [hx] at h'
  cases hq : l2[k]? with
  | none =>
    rw [hq] at h'
    simp at h'
  | some y =>
    rw [hq] at h'
    simp at h'
    exact ⟨y, rfl, h'.symm⟩

/-- **C4**: the adjustment pass never adds, removes or reorders
detections and never touches their ids, classes or boxes — only
confidences can change; and a detection participating in no matching
rule pair keeps its confidence and contributes no change-log entry
(the fold equals the fold over the pairs avoiding it). -/
theorem C4_frame_and_no_rule (objs : List Det) (mm : String × String → Option ℚ)
    (cm : ℤ → String) (hids : (objs.map Det.id).Nodup) :
    ((apply_symbolic_modifiers objs mm cm).1).map skel = objs.map skel
    ∧ ((apply_symbolic_modifiers objs mm cm).1).length = objs.length
    ∧ ∀ (i : ℕ) (a : Det), objs[i]? = some a →
        (∀ (j : ℕ) (b : Det), objs[j]? = some b → j ≠ i →
          lookupWeight mm (cm a.category_id) (cm b.category_id) = none ∧
          lookupWeight mm (cm b.category_id) (cm a.category_id) = none) →
        ((apply_symbolic_modifiers objs mm cm).1)[i]? = some a
        ∧ apply_symbolic_modifiers objs mm cm
            = ((pairIndices objs.length).filter
                fun p => p.1 != i && p.2 != i).foldl
                (modifierStep mm cm) (objs, []) := by
  have hA : ((apply_symbolic_modifiers objs mm cm).1).map skel = objs.map skel :=
    foldl_modifierStep_map_skel mm cm (pairIndices objs.length) (objs, [])
  refine ⟨hA, ?_, ?_⟩
  · have hlen := congrArg List.length hA
    simpa using hlen
  · intro i a hia hno
    have hfilter : apply_symbolic_modifiers objs mm cm
        = ((pairIndices objs.length).filter
            fun p => p.1 != i && p.2 != i).foldl (modifierStep mm cm) (objs, []) := by
      apply foldl_filter_of_inv mm cm objs _ _ _ rfl
      intro st' p hp hinv hk
      have hmem := mem_pairIndices hp
      apply modifierStep_eq_self_of_none
      intro x y hx hy
      obtain ⟨x0, hx0, hskx⟩ := skel_inv st'.1 objs hinv p.1 x hx
      obtain ⟨y0, hy0, hsky⟩ := skel_inv st'.1 objs hinv p.2 y hy
      have hcx : x0.category_id = x.category_id := congrArg (fun t => t.2.1) hskx
      have hcy : y0.category_id = y.category_id := congrArg (fun t => t.2.1) hsky
      have hpi : p.1 = i ∨ p.2 = i := by
        by_cases h1 : p.1 = i
        · exact Or.inl h1
        · by_cases h2 : p.2 = i
          · exact Or.inr h2
          · exfalso
            have htrue : (p.1 != i && p.2 != i) = true := by simp [h1, h2]
            rw [htrue] at hk
            exact Bool.noConfusion hk
      rcases hpi with h | h
      · have hx0a : x0 = a := by
          rw [h, hia] at hx0
          exact (Option.some.inj hx0).symm
        have hji : p.2 ≠ i := by
          intro hji
          rw [h, hji] at hmem
          exact lt_irrefl i hmem.1
        rw [← hcx, ← hcy, hx0a]
        exact (hno p.2 y0 hy0 hji).1
      · have hy0a : y0 = a := by
          rw [h, hia] at hy0
          exact (Option.some.inj hy0).symm
        have hji : p.1 ≠ i := by
          intro hji
          rw [hji, h] at hmem
          exact lt_irrefl i hmem.1
        rw [← hcx, ← hcy, hy0a]
        exact (hno p.1 x0 hx0 hji).2
    refine ⟨?_, hfilter⟩
    rw [hfilter]
    have havoid : ∀ p ∈ (pairIndices objs.length).filter
        (fun p => p.1 != i && p.2 != i), p.1 ≠ i ∧ p.2 ≠ i := by
      intro p hp
      have := (List.mem_filter.mp hp).2
      simp only [Bool.and_eq_true, bne_iff_ne, ne_eq] at this
      exact this
    rw [foldl_getElem_of_avoid mm cm i _ (objs, []) havoid]
    exact hia

/-- Witness for `C4_frame_and_no_rule`: two distinct-id detections and
an empty rule table — the pass is the identity on the list and the
first detection keeps its confidence. -/
theorem C4_frame_and_no_rule_witness :
    ((apply_symbolic_modifiers [c2A, c2B] (fun _ => none) c2Cm).1).map skel
        = [c2A, c2B].map skel
    ∧ ((apply_symbolic_modifiers [c2A, c2B] (fun _ => none) c2Cm).1).length = 2
    ∧ ((apply_symbolic_modifiers [c2A, c2B] (fun _ => none) c2Cm).1)[0]? = some c2A := by
  have h := C4_frame_and_no_rule [c2A, c2B] (fun _ => none) c2Cm
    (by simp [c2A, c2B])
  exact ⟨h.1, h.2.1, (h.2.2 0 c2A rfl fun j b hb hj => ⟨rfl, rfl⟩).1⟩

/-! ## NMS lemmas -/

/-- Membership through stable insertion. -/
theorem mem_insertByConf {x d : Det} {l : List Det} :
    x ∈ insertByConf d l ↔ x = d ∨ x ∈ l := by
  induction l with
  | nil => simp [insertByConf]
  | cons e es ih =>
    unfold insertByConf
    by_cases hc : e.confidence ≤ d.confidence
    · rw [if_pos hc]
      simp [List.mem_cons]
    · rw [if_neg hc]
      simp only [List.mem_cons, ih]
      tauto

/-- Sorting by confidence preserves membership. -/
theorem mem_sortByConfDesc {x : Det} {l : List Det} :
    x ∈ sortByConfDesc l ↔ x ∈ l := by
  induction l with
  | nil => simp [sortByConfDesc]
  | cons d ds ih =>
    unfold sortByConfDesc
    rw [mem_insertByConf, ih]
    simp [List.mem_cons]

/-- Every box kept by the greedy pass comes from its input. -/
theorem mem_of_mem_nmsGreedy (t : ℚ) (l : List Det) (x : Det)
    (hx : x ∈ nmsGreedy t l) : x ∈ l := by
  match l with
  | [] =>
    rw [nmsGreedy] at hx
    exact absurd hx (List.not_mem_nil x)
  | d :: rest =>
    rw [nmsGreedy] at hx
    rcases List.mem_cons.mp hx with h | h
    · exact h ▸ List.mem_cons_self d rest
    · exact List.mem_cons_of_mem d
        (List.mem_of_mem_filter
          (mem_of_mem_nmsGreedy t (rest.filter fun e => iou d.bbox e.bbox ≤ t) x h))
termination_by l.length
decreasing_by
  simp only [List.length_cons]
  exact Nat.lt_succ_of_le (List.length_filter_le _ _)

/-- Every box kept by the modelled `torchvision.ops.nms` comes from
its input. -/
theorem mem_of_mem_torchvision_nms {objs : List Det} {t : ℚ} {x : Det}
    (hx : x ∈ torchvision_nms objs t) : x ∈ objs :=
  mem_sortByConfDesc.mp (mem_of_mem_nmsGreedy t (sortByConfDesc objs) x hx)

/-- `firstKeys` keeps exactly the values of its input. -/
theorem mem_firstKeys {c : ℤ} {l : List ℤ} : c ∈ firstKeys l ↔ c ∈ l := by
  match l with
  | [] => simp [firstKeys]
  | d :: rest =>
    rw [firstKeys]
    by_cases hc : c = d
    · subst hc
      simp
    · simp only [List.mem_cons, hc, false_or]
      rw [mem_firstKeys (l := rest.filter fun e => e ≠ d)]
      simp [List.mem_filter, hc]
termination_by l.length
decreasing_by
  simp only [List.length_cons]
  exact Nat.lt_succ_of_le (List.length_filter_le _ _)

/-- `firstKeys` never repeats a key. -/
theorem nodup_firstKeys (l : List ℤ) : (firstKeys l).Nodup := by
  match l with
  | [] => simp [firstKeys]
  | d :: rest =>
    rw [firstKeys]
    refine List.nodup_cons.mpr ⟨?_, nodup_firstKeys (rest.filter fun e => e ≠ d)⟩
    intro hmem
    have := List.mem_filter.mp (mem_firstKeys.mp hmem)
    simp at this
termination_by l.length
decreasing_by
  simp only [List.length_cons]
  exact Nat.lt_succ_of_le (List.length_filter_le _ _)

/-- Filtering a keyed concatenation for class `c` selects exactly the
block of key `c`. -/
theorem filter_flatMap_classes (keys : List ℤ) (F : ℤ → List Det) (c : ℤ)
    (hnd : keys.Nodup)
    (hcat : ∀ k ∈ keys, ∀ x ∈ F k, x.category_id = k) :
    (keys.flatMap F).filter (fun d => d.category_id = c)
      = if c ∈ keys then F c else [] := by
  induction keys with
  | nil => simp
  | cons k ks ih =>
    rw [List.flatMap_cons, List.filter_append]
    have hnd' := List.nodup_cons.mp hnd
    by_cases hck : c = k
    · subst hck
      have h1 : (F c).filter (fun d => d.category_id = c) = F c := by
        apply List.filter_eq_self.mpr
        intro x hx
        simp [hcat c (List.mem_cons_self c ks) x hx]
      have h2 : (ks.flatMap F).filter (fun d => d.category_id = c) = [] := by
        rw [ih hnd'.2 fun k' hk' => hcat k' (List.mem_cons_of_mem c hk')]
        simp [hnd'.1]
      rw [h1, h2, List.append_nil]
      simp
    · have h1 : (F k).filter (fun d => d.category_id = c) = [] := by
        apply List.filter_eq_nil_iff.mpr
        intro x hx
        simp only [hcat k (List.mem_cons_self k ks) x hx, decide_eq_true_eq]
        exact fun hkc => hck hkc.symm
      rw [h1, List.nil_append,
        ih hnd'.2 fun k' hk' => hcat k' (List.mem_cons_of_mem k hk')]
      simp [List.mem_cons, hck]

/-- **C5**: class isolation of the NMS filter — the class-`c` members
of the output are computed from the class-`c` members of the input
alone (classes with fewer than two members pass through unchanged), so
a detection is never suppressed because of a detection of another
class. -/
theorem C5_nms_class_isolation (objs : List Det) (t : ℚ) (c : ℤ) :
    (pre_filter_with_nms objs t).filter (fun d => d.category_id = c)
      = (if (objs.filter fun o => o.category_id = c).length < 2 then
          objs.filter fun o => o.category_id = c
         else torchvision_nms (objs.filter fun o => o.category_id = c) t) := by
  unfold pre_filter_with_nms
  by_cases hemp : objs.isEmpty
  · have : objs = [] := List.isEmpty_iff.mp hemp
    subst this
    simp
  · simp only [hemp, Bool.false_eq_true, if_false]
    rw [filter_flatMap_classes _ _ c (nodup_firstKeys _) ?hcat]
    case hcat =>
      intro k hk x hx
      by_cases hlen : (objs.filter fun o => o.category_id = k).length < 2
      · rw [if_pos hlen] at hx
        have := (List.mem_filter.mp hx).2
        simpa using this
      · rw [if_neg hlen] at hx
        have := (List.mem_filter.mp (mem_of_mem_torchvision_nms hx)).2
        simpa using this
    by_cases hc : c ∈ firstKeys (objs.map fun o => o.category_id)
    · rw [if_pos hc]
    · rw [if_neg hc]
      have hnone : objs.filter (fun o => o.category_id = c) = [] := by
        apply List.filter_eq_nil_iff.mpr
        intro x hx
        intro hxc
        apply hc
        rw [mem_firstKeys]
        simp only [List.mem_map]
        exact ⟨x, hx, by simpa using hxc⟩
      rw [hnone]
      simp

/-! ## Codec lemmas -/

/-- A six-token line decomposes into its tokens. -/
theorem exists_six (line : List Tok) (h6 : line.length = 6) :
    ∃ t0 t1 t2 t3 t4 t5 : Tok, line = [t0, t1, t2, t3, t4, t5] := by
  match line with
  | [] => simp at h6
  | [a] => simp at h6
  | [a, b] => simp at h6
  | [a, b, c] => simp at h6
  | [a, b, c, d] => simp at h6
  | [a, b, c, d, e] => simp at h6
  | [a, b, c, d, e, f] => exact ⟨a, b, c, d, e, f, rfl⟩
  | a :: b :: c :: d :: e :: f :: g :: rest =>
    simp only [List.length_cons] at h6
    omega

/-- Python truncation is the identity on integer values. -/
theorem pyTrunc_intCast (c : ℤ) : pyTrunc (c : ℚ) = c := by
  unfold pyTrunc
  by_cases hc : (0:ℚ) ≤ (c:ℚ)
  · rw [if_pos hc]
    exact_mod_cast Int.floor_intCast c
  · rw [if_neg hc]
    have hcast : (-(c:ℚ)) = ((-c : ℤ) : ℚ) := by push_cast; ring
    rw [hcast, Int.floor_intCast]
    ring

/-- **C6 counterexample**: a file with 2 valid lines and 3 malformed
lines, one of which has exactly 6 tokens including a non-numeric one —
the claim says it parses to 2 detections with no error, but
`map(float, parts)` raises on the non-numeric token and the parse
fails. -/
theorem C6_counterexample :
    parse_predictions 0
      [[Tok.num 0, Tok.num (1/2), Tok.num (1/2), Tok.num (1/4), Tok.num (1/4), Tok.num (9/10)],
       [Tok.num 1, Tok.num (1/2), Tok.num (1/2), Tok.num (1/4), Tok.num (1/4), Tok.num (4/5)],
       [Tok.num 1],
       [],
       [Tok.num 0, Tok.junk, Tok.num 0, Tok.num 0, Tok.num 0, Tok.num 0]]
      = Except.error () := rfl

/-- **C6 (amended)**: the parser silently skips exactly the lines whose
token count differs from 6; when every 6-token line is fully numeric
the parse succeeds and returns one detection per 6-token line.  (A
6-token line containing a non-numeric token instead raises, aborting
the parse — see the counterexample.) -/
theorem C6_parse_amended (idx : ℕ) (lines : List (List Tok))
    (h : ∀ l ∈ lines, l.length = 6 → ∀ t ∈ l, t ≠ Tok.junk) :
    ∃ ds : List Det, parse_predictions idx lines = Except.ok ds
      ∧ ds.length = (lines.filter fun l => l.length == 6).length := by
  induction lines generalizing idx with
  | nil => exact ⟨[], rfl, rfl⟩
  | cons line rest ih =>
    obtain ⟨ds, hds, hlen⟩ := ih (idx + 1) fun l hl => h l (List.mem_cons_of_mem _ hl)
    by_cases h6 : line.length = 6
    · obtain ⟨t0, t1, t2, t3, t4, t5, rfl⟩ := exists_six line h6
      have hnum := h _ (List.mem_cons_self _ _) h6
      obtain ⟨q0, rfl⟩ : ∃ q, t0 = Tok.num q := by
        cases t0 with
        | num q => exact ⟨q, rfl⟩
        | junk => exact absurd rfl (hnum _ (by simp))
      obtain ⟨q1, rfl⟩ : ∃ q, t1 = Tok.num q := by
        cases t1 with
        | num q => exact ⟨q, rfl⟩
        | junk => exact absurd rfl (hnum _ (by simp))
      obtain ⟨q2, rfl⟩ : ∃ q, t2 = Tok.num q := by
        cases t2 with
        | num q => exact ⟨q, rfl⟩
        | junk => exact absurd rfl (hnum _ (by simp))
      obtain ⟨q3, rfl⟩ : ∃ q, t3 = Tok.num q := by
        cases t3 with
        | num q => exact ⟨q, rfl⟩
        | junk => exact absurd rfl (hnum _ (by simp))
      obtain ⟨q4, rfl⟩ : ∃ q, t4 = Tok.num q := by
        cases t4 with
        | num q => exact ⟨q, rfl⟩
        | junk => exact absurd rfl (hnum _ (by simp))
      obtain ⟨q5, rfl⟩ : ∃ q, t5 = Tok.num q := by
        cases t5 with
        | num q => exact ⟨q, rfl⟩
        | junk => exact absurd rfl (hnum _ (by simp))
      refine ⟨{ id := "det_" ++ toString idx, category_id := pyTrunc q0, bbox := ⟨q1 - q3/2, q2 - q4/2, q1 + q3/2, q2 + q4/2⟩, bbox_yolo := ⟨q1, q2, q3, q4⟩, confidence := q5 } :: ds, ?_, ?_⟩
      · simp only [parse_predictions, parseLine, pyFloat]
        rw [if_neg (by simp)]
        simp only [hds]
        rfl
      · simp [List.filter_cons, hlen]
    · refine ⟨ds, ?_, ?_⟩
      · have hpl : parseLine idx line = Except.ok none := by
          unfold parseLine
          rw [if_pos h6]
        simp only [parse_predictions]
        rw [hpl]
        simp only [hds]
        rfl
      · have hb : (line.length == 6) = false := by
          simp [h6]
        simp [List.filter_cons, hb, hlen]

/-- Witness for `C6_parse_amended`: 2 valid lines and 3 malformed ones
(all malformed by token count) parse to exactly 2 detections. -/
theorem C6_parse_amended_witness :
    ∃ ds : List Det,
      parse_predictions 0
        [[Tok.num 0, Tok.num (1/2), Tok.num (1/2), Tok.num (1/4), Tok.num (1/4), Tok.num (9/10)],
         [Tok.num 1, Tok.num (1/2), Tok.num (1/2), Tok.num (1/4), Tok.num (1/4), Tok.num (4/5)],
         [Tok.num 1],
         [],
         [Tok.num 0, Tok.num 0, Tok.num 0]]
        = Except.ok ds
      ∧ ds.length =
        ([[Tok.num 0, Tok.num (1/2), Tok.num (1/2), Tok.num (1/4), Tok.num (1/4), Tok.num (9/10)],
          [Tok.num 1, Tok.num (1/2), Tok.num (1/2), Tok.num (1/4), Tok.num (1/4), Tok.num (4/5)],
          [Tok.num 1],
          ([] : List Tok),
          [Tok.num 0, Tok.num 0, Tok.num 0]].filter fun l => l.length == 6).length :=
  C6_parse_amended 0 _ (by decide)

/-- **C9 counterexample**: the claim's conjunct "the write operation
always emits every numeric field with fixed 6-decimal formatting" is
false for its cited source `save_predictions_to_file`
(`pipeline/utils.py` lines 69-80): writing a detection with confidence
`1/3` emits the raw value `1/3`, which is not a 6-decimal-fixed value
(`fmt6 (1/3) ≠ 1/3`), and differs from what the backend writer
`_save_predictions` emits for the same detection. -/
theorem C9_writer_counterexample :
    save_predictions_to_file [c9D]
        = [[Tok.num 2, Tok.num (1/2), Tok.num (1/2), Tok.num (1/4), Tok.num (1/4), Tok.num (1/3)]]
    ∧ fmt6 (1/3 : ℚ) ≠ (1/3 : ℚ)
    ∧ save_predictions_to_file [c9D] ≠ save_predictions [c9D] := by
  have hr : round ((1/3 : ℚ) * 1000000) = 333333 := by
    have h13 : (1/3 : ℚ) * 1000000 + 1/2 = 2000003/6 := by norm_num
    rw [round_eq, h13, Int.floor_eq_iff]
    norm_num
  have hne : fmt6 (1/3 : ℚ) ≠ (1/3 : ℚ) := by
    unfold fmt6
    rw [hr]
    norm_num
  refine ⟨rfl, hne, ?_⟩
  intro hcon
  have h1 : writeLineRaw c9D = writeLine c9D := by
    simpa [save_predictions_to_file, save_predictions] using hcon
  simp only [writeLineRaw, writeLine, List.cons.injEq, Tok.num.injEq, and_true] at h1
  exact hne h1.2.2.2.2.2.symm

/-- **C9 (amended)**: parsing a file of well-formed lines succeeds;
writing the parsed detections with the backend writer
(`_save_predictions`, `symbolic.py` lines 359-388) reproduces the
input lines with every float field fixed to 6 decimals and the class
id unchanged, while the pipeline writer (`save_predictions_to_file`,
`pipeline/utils.py` lines 69-80) reproduces the input lines exactly —
it applies no 6-decimal formatting, so "always emits every numeric
field with fixed 6-decimal formatting" holds only for the backend
writer. -/
theorem C9_roundtrip (idx : ℕ) (lines : List (List Tok))
    (h : ∀ l ∈ lines, ∃ (c : ℤ) (x y w hh f : ℚ),
      l = [Tok.num (c : ℚ), Tok.num x, Tok.num y, Tok.num w, Tok.num hh, Tok.num f]) :
    ∃ ds : List Det, parse_predictions idx lines = Except.ok ds
      ∧ save_predictions ds = lines.map fmt6Line
      ∧ save_predictions_to_file ds = lines := by
  induction lines generalizing idx with
  | nil => exact ⟨[], rfl, rfl, rfl⟩
  | cons line rest ih =>
    obtain ⟨c, x, y, w, hh, f, rfl⟩ := h _ (List.mem_cons_self _ _)
    obtain ⟨ds, hp, hsave, hraw⟩ := ih (idx + 1) fun l hl => h l (List.mem_cons_of_mem _ hl)
    refine ⟨{ id := "det_" ++ toString idx, category_id := pyTrunc (c : ℚ), bbox := ⟨x - w/2, y - hh/2, x + w/2, y + hh/2⟩, bbox_yolo := ⟨x, y, w, hh⟩, confidence := f } :: ds, ?_, ?_, ?_⟩
    · simp only [parse_predictions, parseLine, pyFloat]
      rw [if_neg (by simp)]
      simp only [hp]
      rfl
    · simp only [save_predictions, List.map_cons]
      rw [show List.map writeLine ds = save_predictions ds from rfl, hsave]
      congr 1
      unfold writeLine fmt6Line
      simp [pyTrunc_intCast]
    · simp only [save_predictions_to_file, List.map_cons]
      rw [show List.map writeLineRaw ds = save_predictions_to_file ds from rfl, hraw]
      congr 1
      unfold writeLineRaw
      simp [pyTrunc_intCast]

/-- Witness for `C9_roundtrip`: a one-line well-formed file. -/
theorem C9_roundtrip_witness :
    ∃ ds : List Det,
      parse_predictions 0
        [[Tok.num ((3 : ℤ) : ℚ), Tok.num (1/2), Tok.num (2/5), Tok.num (1/4), Tok.num (1/8), Tok.num (9/10)]]
        = Except.ok ds
      ∧ save_predictions ds
        = [[Tok.num ((3 : ℤ) : ℚ), Tok.num (1/2), Tok.num (2/5), Tok.num (1/4), Tok.num (1/8), Tok.num (9/10)]].map
          fmt6Line
      ∧ save_predictions_to_file ds
        = [[Tok.num ((3 : ℤ) : ℚ), Tok.num (1/2), Tok.num (2/5), Tok.num (1/4), Tok.num (1/8), Tok.num (9/10)]] :=
  C9_roundtrip 0 _ (by
    intro l hl
    rw [List.mem_singleton] at hl
    exact ⟨3, 1/2, 2/5, 1/4, 1/8, 9/10, hl⟩)

/-- **C7 counterexample**: with the raw-artifact directory entirely
missing at NMS time, the run still marks the job `"completed"` — the
claim says it must end `"failed"` and never `"completed"`, but
`run_inference` catches the stage error ("Don't fail the entire job if
NMS fails") and proceeds. -/
theorem C7_counterexample :
    ((run_inference_tail c7store "j" (1/2) false [] 5) "j").map Job.status
        = some "completed"
    ∧ ((run_inference_tail c7store "j" (1/2) false [] 5) "j").map Job.status
        ≠ some "failed" := by
  constructor
  · rfl
  · intro hcon
    have : some "completed" = some "failed" := by
      rw [← hcon]
      rfl
    simp at this

/-- **C7 (amended)**: when the raw-artifact directory is missing at NMS
time, `apply_nms_post_processing` raises, `run_inference` swallows the
error, records it under `inference_stats["nms"]`, leaves `job.error`
untouched, and the job finishes in status `"completed"` (never
`"failed"` on this path). -/
theorem C7_nms_failure_completes (store : Store) (job_id : String) (job : Job)
    (t : ℚ) (raw : List (String × List Det)) (now : ℕ)
    (hjob : store job_id = some job) :
    ∃ job' : Job, (run_inference_tail store job_id t false raw now) job_id = some job'
      ∧ job'.status = "completed"
      ∧ job'.inference_stats_nms
          = some (Except.error "NMS post-processing failed: Raw predictions directory not found")
      ∧ job'.error = job.error := by
  unfold run_inference_tail apply_nms_post_processing update_job
  rw [hjob]
  simp only [Bool.not_false, eq_self_iff_true, if_true, Option.isSome_some,
    Option.isSome_none, Bool.false_eq_true, if_false, Option.getD_none, Option.getD_some]
  exact ⟨_, rfl, rfl, rfl, rfl⟩

/-- Witness for `C7_nms_failure_completes` at the concrete store. -/
theorem C7_nms_failure_completes_witness :
    ∃ job' : Job, (run_inference_tail c7store "j" (1/2) false [] 5) "j" = some job'
      ∧ job'.status = "completed"
      ∧ job'.inference_stats_nms
          = some (Except.error "NMS post-processing failed: Raw predictions directory not found")
      ∧ job'.error = c7job.error :=
  C7_nms_failure_completes c7store "j" c7job (1/2) [] 5 rfl

/-- **C8**: the trigger-inference endpoint accepts exactly when the job
exists with status `"uploaded"` and a non-empty file list; any
rejection leaves the store untouched; acceptance stores the job with
status `"processing"`. -/
theorem C8_trigger_guards (store : Store) (job_id config : String) (now : ℕ) :
    ((trigger_inference store job_id config now).1 = .accepted
        ↔ ∃ job : Job, store job_id = some job
            ∧ job.status = "uploaded" ∧ job.files ≠ [])
    ∧ ((trigger_inference store job_id config now).1 ≠ .accepted →
        (trigger_inference store job_id config now).2 = store)
    ∧ ((trigger_inference store job_id config now).1 = .accepted →
        ∃ job' : Job, (trigger_inference store job_id config now).2 job_id = some job'
          ∧ job'.status = "processing") := by
  unfold trigger_inference
  cases hj : store job_id with
  | none =>
    refine ⟨?_, fun _ => rfl, fun hacc => absurd hacc (by simp)⟩
    constructor
    · intro hcon
      exact absurd hcon (by simp)
    · rintro ⟨job, hjob, -, -⟩
      exact Option.noConfusion hjob
  | some job =>
    dsimp only
    by_cases hf : job.files.isEmpty
    · rw [if_pos hf]
      have hfe : job.files = [] := List.isEmpty_iff.mp hf
      refine ⟨?_, fun _ => rfl, fun hacc => absurd hacc (by simp)⟩
      constructor
      · intro hcon
        exact absurd hcon (by simp)
      · rintro ⟨job2, hjob2, -, hne⟩
        cases Option.some.inj hjob2
        exact absurd hfe hne
    · rw [if_neg hf]
      by_cases hs : job.status = "uploaded"
      · rw [if_neg (by simp [hs])]
        refine ⟨?_, fun hcon => absurd rfl hcon, fun _ => ?_⟩
        · constructor
          · intro _
            exact ⟨job, rfl, hs, fun hfe => hf (by simp [hfe])⟩
          · intro _
            rfl
        · unfold update_job
          rw [hj]
          dsimp only
          rw [if_pos rfl]
          exact ⟨_, rfl, rfl⟩
      · rw [if_pos (by simpa using hs)]
        refine ⟨?_, fun _ => rfl, fun hacc => absurd hacc (by simp)⟩
        constructor
        · intro hcon
          exact absurd hcon (by simp)
        · rintro ⟨job2, hjob2, hst, -⟩
          cases Option.some.inj hjob2
          exact absurd hst hs

/-- Witness for `C8_trigger_guards`: a ready job is accepted and moved
to `"processing"`. -/
theorem C8_trigger_guards_witness :
    (trigger_inference c8store "j" "cfg" 3).1 = .accepted
    ∧ ∃ job' : Job, (trigger_inference c8store "j" "cfg" 3).2 "j" = some job'
        ∧ job'.status = "processing" := by
  have h := C8_trigger_guards c8store "j" "cfg" 3
  have hacc : (trigger_inference c8store "j" "cfg" 3).1 = .accepted :=
    h.1.mpr ⟨c8job, rfl, rfl, by simp [c8job]⟩
  exact ⟨hacc, h.2.2 hacc⟩

end NSAI
